import Mathlib

/-!
Verification of the interview-simulator repository.

Shallow embedding of the Python sources into Lean 4.  Real-valued
quantities are modelled by `ℚ`; the ambient pseudo-random source is made
explicit: every Gaussian draw the code performs becomes an injected
sample parameter (a `ℚ` argument or an indexed stream of them).
Fallible operations (Python exceptions) are modelled with `Option` /
`Except`: a `none` / `.error` result marks the run raising.
-/

namespace InterviewSim

/-! ### Settings (`interview_config.py`) -/

def MIN_COMPENSATION : ℚ := 95000
def MAX_COMPENSATION : ℚ := 600000
def P25_COMPENSATION : ℚ := 192000
def MEDIAN_COMPENSATION : ℚ := 254000
def P75_COMPENSATION : ℚ := 348000
def P90_COMPENSATION : ℚ := 455000

def MIN_INTERVIEW_LENGTH : ℚ := 1/4
def MAX_INTERVIEW_LENGTH : ℚ := 2
def MAX_CANDIDATES_TO_CONSIDER : ℕ := 1000
def DEFAULT_SELF_ASSESSMENT_TIME : ℚ := 1
def DEFAULT_INTERVIEW_LENGTH : ℚ := 1

/-! ### Perception model (`engineer.py`) -/

/-- Python `int(x)` on a float truncates toward zero. -/
def truncQ (q : ℚ) : ℤ := if 0 ≤ q then ⌊q⌋ else ⌈q⌉

/-- `Engineer.estimate_skill_level`.  The Gaussian draw
`gauss(0, error_std / interview_length)` (taken after the duration is
clamped) is injected as the explicit sample `noiseSample`; `error_std`
is kept as an argument for signature fidelity, it only scales the
distribution the sample is drawn from. -/
def estimate_skill_level (skill_score : ℚ) (error_std : ℚ) (error_bias : ℚ)
    (interview_length : ℚ) (noiseSample : ℚ) : ℤ :=
  let len := max MIN_INTERVIEW_LENGTH (min MAX_INTERVIEW_LENGTH interview_length)
  let error := noiseSample
  let estimated_score := skill_score + error + error_bias / len
  max 1 (min 100 (truncQ estimated_score))

/-- `EngineerParams` (the pydantic model's five fields; the random
default factories are replaced by explicit values supplied by the
injected draw stream). -/
structure EngineerParams where
  skill_score_true : ℤ
  own_error_std : ℚ
  own_bias : ℚ
  eval_error_std : ℚ
  eval_bias : ℚ
deriving DecidableEq, Repr

/-- `Engineer`: parameters plus the self-perceived skill cached by
`Engineer.__init__`. -/
structure Engineer where
  params : EngineerParams
  skill_score_perceived : ℤ
deriving DecidableEq, Repr

/-- `Engineer.__init__`: caches
`estimate_skill_level(skill_score_true, own_error_std, own_bias,
DEFAULT_SELF_ASSESSMENT_TIME)`; the Gaussian sample of that call is the
injected `ownNoise`. -/
def Engineer.create (params : EngineerParams) (ownNoise : ℚ) : Engineer :=
  { params := params
    skill_score_perceived :=
      estimate_skill_level (params.skill_score_true : ℚ) params.own_error_std
        params.own_bias DEFAULT_SELF_ASSESSMENT_TIME ownNoise }

/-- `Engineer.estimate_other_skill`: the evaluator's eval-noise/eval-bias
against the other's true skill. -/
def Engineer.estimate_other_skill (self : Engineer) (other : Engineer)
    (interview_length : ℚ) (noiseSample : ℚ) : ℤ :=
  estimate_skill_level (other.params.skill_score_true : ℚ)
    self.params.eval_error_std self.params.eval_bias interview_length noiseSample

/-! ### Compensation (`compensation.py`) -/

def linear_interpolation (x x1 x2 y1 y2 : ℚ) : ℚ :=
  y1 + (y2 - y1) * (x - x1) / (x2 - x1)

def map_skill_to_compensation (skill_score : ℤ) : ℚ :=
  let s : ℤ := max 1 (min 100 skill_score)
  if s ≤ 25 then
    linear_interpolation (s : ℚ) 1 25 MIN_COMPENSATION P25_COMPENSATION
  else if s ≤ 50 then
    linear_interpolation (s : ℚ) 25 50 P25_COMPENSATION MEDIAN_COMPENSATION
  else if s ≤ 75 then
    linear_interpolation (s : ℚ) 50 75 MEDIAN_COMPENSATION P75_COMPENSATION
  else if s ≤ 90 then
    linear_interpolation (s : ℚ) 75 90 P75_COMPENSATION P90_COMPENSATION
  else
    let percentage : ℚ := ((s : ℚ) - 90) / 10
    P90_COMPENSATION + (MAX_COMPENSATION - P90_COMPENSATION) * percentage ^ 2

def make_offer (final_score : ℤ) (adjustment : ℚ) : ℚ :=
  let s : ℤ := max 1 (min 100 final_score)
  let adj : ℚ := max (-(1/2)) (min 5 adjustment)
  let true_compensation := map_skill_to_compensation s
  let offer := true_compensation * (1 + adj)
  max 0 offer

/-! ### Interview steps (`interview.py`) -/

/-- The per-step statistics dictionary
`{min, max, avg, median, std}`.  All scores are integers, so the first
four statistics are exact rationals.  The source's `std` is
`statistics.stdev(scores)` — the square root of the sample variance —
which is irrational in general; we record its square `stdSq` (the
sample variance itself, `0` when there is a single score), which
determines `std` and keeps the embedding computable. -/
structure StepResult where
  min : ℚ
  max : ℚ
  avg : ℚ
  median : ℚ
  stdSq : ℚ
deriving DecidableEq, Repr

def intsMin : List ℤ → ℤ
  | [] => 0
  | x :: xs => xs.foldl Min.min x

def intsMax : List ℤ → ℤ
  | [] => 0
  | x :: xs => xs.foldl Max.max x

def insertSortedInt (x : ℤ) : List ℤ → List ℤ
  | [] => [x]
  | y :: ys => if x ≤ y then x :: y :: ys else y :: insertSortedInt x ys

/-- Ascending sort, as `statistics.median` performs internally. -/
def sortInts : List ℤ → List ℤ
  | [] => []
  | x :: xs => insertSortedInt x (sortInts xs)

/-- `statistics.mean` on a list of integer scores: the exact average. -/
def avgOf (l : List ℤ) : ℚ := (l.sum : ℚ) / (l.length : ℚ)

/-- `statistics.median`: middle element of the sorted list when the
length is odd, average of the two middle elements when even. -/
def medianOf (l : List ℤ) : ℚ :=
  let sorted := sortInts l
  let n := l.length
  if n % 2 = 1 then ((sorted.getD (n / 2) 0 : ℤ) : ℚ)
  else (((sorted.getD (n / 2 - 1) 0 + sorted.getD (n / 2) 0 : ℤ) : ℚ)) / 2

/-- The square of `statistics.stdev` (sample variance with Bessel's
correction); the source stores its square root, guarded by
`if len(scores) > 1 else 0`. -/
def varOf (l : List ℤ) : ℚ :=
  if 1 < l.length then
    (l.map (fun x => ((x : ℚ) - avgOf l) ^ 2)).sum / ((l.length : ℚ) - 1)
  else 0

/-- `InterviewStep`: a duration and the interviewer list. -/
structure InterviewStep where
  duration : ℚ
  interviewers : List Engineer
deriving DecidableEq, Repr

/-- `InterviewStep(...)` construction through pydantic: the
`Field(..., ge=MIN_INTERVIEW_LENGTH, le=MAX_INTERVIEW_LENGTH)` bound on
`duration` makes out-of-range values a `ValidationError` (modelled as
`.error`); `interviewers` carries no constraint. -/
def InterviewStep.create (duration : ℚ) (interviewers : List Engineer) :
    Except String InterviewStep :=
  if MIN_INTERVIEW_LENGTH ≤ duration ∧ duration ≤ MAX_INTERVIEW_LENGTH then
    .ok { duration := duration, interviewers := interviewers }
  else
    .error "ValidationError: duration out of range"

/-- `create_interview_step(duration, *interviewers)`. -/
def create_interview_step (duration : ℚ) (interviewers : List Engineer) :
    Except String InterviewStep :=
  InterviewStep.create duration interviewers

/-- The scores list of `InterviewStep.conduct`: one
`estimate_other_skill` call per interviewer, each consuming its own
Gaussian draw `noiseRow i`. -/
def scoresFrom (cand : Engineer) (duration : ℚ) (noiseRow : ℕ → ℚ) :
    ℕ → List Engineer → List ℤ
  | _, [] => []
  | i, ev :: rest =>
    ev.estimate_other_skill cand duration (noiseRow i) ::
      scoresFrom cand duration noiseRow (i + 1) rest

/-- The statistics record built by `InterviewStep.conduct` from a scores
list (meaningful when the list is non-empty). -/
def statsOf (scores : List ℤ) : StepResult :=
  { min := (intsMin scores : ℚ)
    max := (intsMax scores : ℚ)
    avg := avgOf scores
    median := medianOf scores
    stdSq := varOf scores }

/-- `InterviewStep.conduct`: with no interviewers the source's
`min([])` raises `ValueError` (modelled as `none`). -/
def InterviewStep.conduct (step : InterviewStep) (cand : Engineer)
    (noiseRow : ℕ → ℚ) : Option StepResult :=
  let scores := scoresFrom cand step.duration noiseRow 0 step.interviewers
  if scores.isEmpty then none else some (statsOf scores)

/-- `Interview`: a list of steps. -/
structure Interview where
  steps : List InterviewStep
deriving DecidableEq, Repr

/-- `Interview.validate`: `ValueError` when there are no steps or some
step has no interviewers. -/
def Interview.validate (itv : Interview) : Except String Unit :=
  if itv.steps.isEmpty then
    .error "Interview must have at least one step"
  else if itv.steps.any (fun s => s.interviewers.isEmpty) then
    .error "Each interview step must have at least one interviewer"
  else
    .ok ()

/-- `create_interview(*steps)`: builds the `Interview` and validates it. -/
def create_interview (steps : List InterviewStep) : Except String Interview :=
  match Interview.validate { steps := steps } with
  | .ok _ => .ok { steps := steps }
  | .error e => .error e

/-! ### Elimination policies and pipeline (`interview_pipeline.py`) -/

/-- The `"immediate"` closure: `scores[-1]["avg"] < target`.  On an
empty list the Python indexing `scores[-1]` raises `IndexError`
(modelled as `none`). -/
def immediateElim (scores : List StepResult) (target : ℚ) : Option Bool :=
  (scores.getLast?).map (fun s => decide (s.avg < target))

/-- The `"aggregate"` closure:
`sum(s["avg"] for s in scores) / len(scores) < target`.  On an empty
list the division raises `ZeroDivisionError` (modelled as `none`). -/
def aggregateElim (scores : List StepResult) (target : ℚ) : Option Bool :=
  if scores.isEmpty then none
  else some (decide ((scores.map StepResult.avg).sum / (scores.length : ℚ) < target))

/-- `create_elimination_function`: `ValueError` on any name other than
`"immediate"` and `"aggregate"`. -/
def create_elimination_function (elimination_type : String) :
    Except String (List StepResult → ℚ → Option Bool) :=
  if elimination_type = "immediate" then .ok immediateElim
  else if elimination_type = "aggregate" then .ok aggregateElim
  else .error "Invalid elimination type. Choose immediate or aggregate."

/-- `InterviewPipeline.__init__` just stores the steps; it performs no
validation. -/
structure InterviewPipeline where
  steps : List InterviewStep
deriving Repr

/-- The `for step in self.steps` loop of `InterviewPipeline.__call__`,
carrying the step index (for the injected noise stream), the
accumulated `total_time` and the accumulated `scores`.  A `none` from
`conduct` (empty-interviewer step) or from the elimination function
(never reached on these call sites, see the safety theorem) aborts the
run, mirroring an uncaught Python exception. -/
def runSteps (f : List StepResult → ℚ → Option Bool) (target : ℚ)
    (cand : Engineer) (noise : ℕ → ℕ → ℚ) :
    List InterviewStep → ℕ → ℚ → List StepResult → Option (ℚ × List StepResult)
  | [], _, total_time, scores => some (total_time, scores)
  | step :: rest, i, total_time, scores =>
    let total2 := total_time + step.duration
    match step.conduct cand (noise i) with
    | none => none
    | some current_score =>
      let scores2 := scores ++ [current_score]
      match f scores2 target with
      | none => none
      | some true => some (total2, scores2)
      | some false => runSteps f target cand noise rest (i + 1) total2 scores2

/-- `InterviewPipeline.__call__`: build the elimination function (a
`ValueError` on an unknown name propagates), then run the steps from
`total_time = 0`, `scores = []`. -/
def InterviewPipeline.call (p : InterviewPipeline) (target_skill_score : ℚ)
    (elimination_type : String) (candidate : Engineer) (noise : ℕ → ℕ → ℚ) :
    Option (ℚ × List StepResult) :=
  match create_elimination_function elimination_type with
  | .error _ => none
  | .ok f => runSteps f target_skill_score candidate noise p.steps 0 0 []

/-- `create_interview_pipeline(*steps)`: no validation either. -/
def create_interview_pipeline (steps : List InterviewStep) : InterviewPipeline :=
  { steps := steps }

/-! ### Candidate generation and search (`candidate_selection.py`) -/

/-- One raw draw of `generate_candidates`: the random
`EngineerParams()` values together with the two Gaussian samples the
draw consumes — `ownNoise` inside `Engineer.__init__` (the cached
self-perception) and `estNoise` inside the generator's
`estimate_skill_level(target_score, ...)` call. -/
structure Draw where
  params : EngineerParams
  ownNoise : ℚ
  estNoise : ℚ
deriving DecidableEq, Repr

/-- The acceptance band test of `generate_candidates` on one raw draw:
the freshly built candidate's cached `skill_score_perceived` must lie
within `tolerance` of the candidate's own noisy estimate of the target
score (eval-noise/eval-bias, `DEFAULT_SELF_ASSESSMENT_TIME`). -/
def inBand (target_score tolerance : ℚ) (d : Draw) : Bool :=
  let candidate := Engineer.create d.params d.ownNoise
  let estimated_target_score :=
    estimate_skill_level target_score candidate.params.eval_error_std
      candidate.params.eval_bias DEFAULT_SELF_ASSESSMENT_TIME d.estNoise
  let lower_bound := (estimated_target_score : ℚ) * (1 - tolerance)
  let upper_bound := (estimated_target_score : ℚ) * (1 + tolerance)
  decide (lower_bound ≤ (candidate.skill_score_perceived : ℚ) ∧
    (candidate.skill_score_perceived : ℚ) ≤ upper_bound)

/-- `next(...)` on the `generate_candidates(target_score, tolerance)`
generator: starting at raw-draw index `i`, skip draws failing the band
test and yield the first passing candidate together with the next raw
index.  The Python loop is unbounded; `fuel` bounds the search in the
embedding and `none` marks the diverging case (no draw within `fuel`
passes). -/
def genCandidates (target_score tolerance : ℚ) (raw : ℕ → Draw) :
    ℕ → ℕ → Option (Engineer × ℕ)
  | 0, _ => none
  | fuel + 1, i =>
    let d := raw i
    if inBand target_score tolerance d then
      some (Engineer.create d.params d.ownNoise, i + 1)
    else
      genCandidates target_score tolerance raw fuel (i + 1)

/-- `scores[-1]["avg"] if scores else 0` in `find_suitable_candidate`. -/
def finalScoreOf (scores : List StepResult) : ℚ :=
  match scores.getLast? with
  | some s => s.avg
  | none => 0

/-- The acceptance test of one `find_suitable_candidate` iteration:
`final_score >= target_score and make_offer(int(final_score), 0) <=
target_compensation`. -/
def acceptsB (target_score target_compensation : ℚ) (scores : List StepResult) :
    Bool :=
  let final_score := finalScoreOf scores
  let perceived_compensation := make_offer (truncQ final_score) 0
  decide (target_score ≤ final_score ∧
    perceived_compensation ≤ target_compensation)

/-- The `for _ in range(MAX_CANDIDATES_TO_CONSIDER)` loop of
`find_suitable_candidate`, carrying the remaining iteration budget
`fuel`, the raw-draw index reached by the generator, and
`total_candidates_screened`.  The interview noise of iteration `j`
(the `j`-th screened candidate) is the stream `noise j`.  `genFuel`
bounds each `next(candidates)` call; `none` again marks a raising or
diverging run. -/
def searchLoop (p : InterviewPipeline) (target_score target_compensation : ℚ)
    (elimination_type : String) (raw : ℕ → Draw) (noise : ℕ → ℕ → ℕ → ℚ)
    (genFuel : ℕ) :
    ℕ → ℕ → ℕ → Option (Option Engineer × ℚ × ℚ × ℕ)
  | 0, _, screened => some (none, 0, 0, screened)
  | fuel + 1, rawIdx, screened =>
    match genCandidates target_score (3/20) raw genFuel rawIdx with
    | none => none
    | some (candidate, rawIdx2) =>
      let screened2 := screened + 1
      match p.call target_score elimination_type candidate (noise screened) with
      | none => none
      | some (total_time, scores) =>
        if acceptsB target_score target_compensation scores then
          some (some candidate, total_time, finalScoreOf scores, screened2)
        else
          searchLoop p target_score target_compensation elimination_type raw
            noise genFuel fuel rawIdx2 screened2

/-- `find_suitable_candidate`: builds the candidate generator (default
tolerance `0.15`) and runs up to `MAX_CANDIDATES_TO_CONSIDER`
iterations; returns `(candidate?, total_time, final_score,
total_candidates_screened)`. -/
def find_suitable_candidate (p : InterviewPipeline)
    (target_score target_compensation : ℚ) (elimination_type : String)
    (raw : ℕ → Draw) (noise : ℕ → ℕ → ℕ → ℚ) (genFuel : ℕ) :
    Option (Option Engineer × ℚ × ℚ × ℕ) :=
  searchLoop p target_score target_compensation elimination_type raw noise
    genFuel MAX_CANDIDATES_TO_CONSIDER 0 0

/-! ### Derived forms used to state the pipeline characterization -/

/-- The statistics record `InterviewStep.conduct` produces for a step
(total form; coincides with `conduct` when the step has interviewers). -/
def statsOfStep (step : InterviewStep) (cand : Engineer) (noiseRow : ℕ → ℚ) :
    StepResult :=
  statsOf (scoresFrom cand step.duration noiseRow 0 step.interviewers)

/-- The per-step results a pipeline run records when it is never
eliminated: one `conduct` outcome per step, the step at position `i`
consuming the noise row `noise i`. -/
def conducts (cand : Engineer) (noise : ℕ → ℕ → ℚ) :
    ℕ → List InterviewStep → List StepResult
  | _, [] => []
  | i, s :: rest => statsOfStep s cand (noise i) :: conducts cand noise (i + 1) rest

/-- Total (`Bool`-valued) form of the two elimination policies; agrees
with the partial closures on the non-empty lists they are invoked on. -/
def elimTotal (elimination_type : String) (scores : List StepResult)
    (target : ℚ) : Bool :=
  if elimination_type = "immediate" then
    match scores.getLast? with
    | some s => decide (s.avg < target)
    | none => false
  else decide ((scores.map StepResult.avg).sum / (scores.length : ℚ) < target)

/-! ### Theorems -/

lemma create_elim_imm :
    create_elimination_function "immediate" = Except.ok immediateElim := rfl

lemma create_elim_agg :
    create_elimination_function "aggregate" = Except.ok aggregateElim := by
  rw [create_elimination_function, if_neg (by decide), if_pos rfl]

lemma immediateElim_total (scores : List StepResult) (target : ℚ)
    (h : scores ≠ []) :
    immediateElim scores target = some (elimTotal "immediate" scores target) := by
  rw [immediateElim, elimTotal, if_pos rfl,
    List.getLast?_eq_getLast_of_ne_nil h]
  rfl

lemma aggregateElim_total (scores : List StepResult) (target : ℚ)
    (h : scores ≠ []) :
    aggregateElim scores target = some (elimTotal "aggregate" scores target) := by
  cases scores with
  | nil => exact absurd rfl h
  | cons a as =>
    rw [aggregateElim, elimTotal]
    simp

lemma conduct_eq_some (step : InterviewStep) (cand : Engineer)
    (noiseRow : ℕ → ℚ) (h : step.interviewers ≠ []) :
    step.conduct cand noiseRow = some (statsOfStep step cand noiseRow) := by
  obtain ⟨d, ivs⟩ := step
  cases ivs with
  | nil => exact absurd rfl h
  | cons a l => simp [InterviewStep.conduct, statsOfStep, scoresFrom]

lemma append_cons_take (acc : List StepResult) (cur : StepResult)
    (l : List StepResult) (j : ℕ) :
    acc ++ (cur :: l).take (j + 1) = (acc ++ [cur]) ++ l.take j := by
  simp [List.take_succ_cons]

/-- Characterization of the `runSteps` loop: with a total elimination
predicate `g` (agreeing with `f` on the non-empty lists it is applied
to), the loop executes exactly `k` steps, where `k` is any index
satisfying the first-elimination conditions, and returns the
accumulated time and results of exactly those steps. -/
lemma runSteps_characterization
    (g : List StepResult → ℚ → Bool) (f : List StepResult → ℚ → Option Bool)
    (hf : ∀ l t, l ≠ [] → f l t = some (g l t))
    (target : ℚ) (cand : Engineer) (noise : ℕ → ℕ → ℚ) :
    ∀ (steps : List InterviewStep) (i0 : ℕ) (t0 : ℚ) (acc : List StepResult)
      (k : ℕ),
      (∀ s ∈ steps, s.interviewers ≠ []) →
      k ≤ steps.length →
      (steps ≠ [] → k ≠ 0) →
      (∀ j, 0 < j → j < k →
        g (acc ++ (conducts cand noise i0 steps).take j) target = false) →
      (k < steps.length →
        g (acc ++ (conducts cand noise i0 steps).take k) target = true) →
      runSteps f target cand noise steps i0 t0 acc =
        some (t0 + ((steps.take k).map InterviewStep.duration).sum,
          acc ++ (conducts cand noise i0 steps).take k) := by
  intro steps
  induction steps with
  | nil =>
    intro i0 t0 acc k _ hk_le _ _ _
    have hk0 : k = 0 := Nat.le_zero.mp hk_le
    subst hk0
    simp [runSteps, conducts]
  | cons s rest ih =>
    intro i0 t0 acc k hsteps hk_le hk_pos hk_no hk_yes
    have hs : s.interviewers ≠ [] := hsteps s (List.mem_cons_self s rest)
    obtain ⟨k', rfl⟩ : ∃ k', k = k' + 1 := by
      rcases Nat.exists_eq_succ_of_ne_zero (hk_pos (List.cons_ne_nil s rest)) with ⟨n, hn⟩
      exact ⟨n, hn⟩
    simp only [runSteps, conduct_eq_some s cand (noise i0) hs,
      hf (acc ++ [statsOfStep s cand (noise i0)]) target (by simp)]
    cases hg : g (acc ++ [statsOfStep s cand (noise i0)]) target with
    | true =>
      have hk0 : k' = 0 := by
        by_contra hne0
        have hno := hk_no 1 Nat.one_pos (by omega)
        rw [conducts, List.take_succ_cons, List.take_zero] at hno
        rw [hno] at hg
        exact Bool.false_ne_true hg
      subst hk0
      rw [conducts, List.take_succ_cons, List.take_zero, List.take_succ_cons,
        List.take_zero]
      simp [add_comm]
    | false =>
      rcases Nat.eq_zero_or_pos k' with hk0 | hk0
      · subst hk0
        cases rest with
        | nil =>
          rw [runSteps, conducts, List.take_succ_cons, List.take_zero,
            List.take_succ_cons, List.take_zero]
          simp [add_comm]
        | cons r rs =>
          have hyes := hk_yes (by simp)
          rw [conducts, List.take_succ_cons, List.take_zero] at hyes
          rw [hyes] at hg
          exact Bool.noConfusion hg
      · have hrec := ih (i0 + 1) (t0 + s.duration)
          (acc ++ [statsOfStep s cand (noise i0)]) k'
          (fun x hx => hsteps x (List.mem_cons_of_mem s hx))
          (by simpa using hk_le)
          (fun _ => by omega)
          (fun j hj0 hjk => by
            have := hk_no (j + 1) (by omega) (by omega)
            rw [conducts, append_cons_take] at this
            exact this)
          (fun hlt => by
            have := hk_yes (by simpa using Nat.succ_lt_succ hlt)
            rw [conducts, append_cons_take] at this
            exact this)
        rw [hrec, conducts, append_cons_take, List.take_succ_cons]
        simp [add_assoc]

/-! #### Claim theorems (continued) -/

/-- C1: `estimate_skill_level` clamps the duration into
`[MIN_INTERVIEW_LENGTH, MAX_INTERVIEW_LENGTH]`, forms
`skill + noise + bias / clampedDuration` (the noise sample being the
injected Gaussian draw, whose distribution scale is
`error_std / clampedDuration`), truncates toward zero and clamps into
`[1, 100]`; in particular the result is always an integer in `[1, 100]`. -/
theorem C1_estimate_skill_level_range (skill_score error_std error_bias
    interview_length noiseSample : ℚ) :
    estimate_skill_level skill_score error_std error_bias interview_length
        noiseSample =
      max 1 (min 100 (truncQ (skill_score + noiseSample + error_bias /
        max MIN_INTERVIEW_LENGTH (min MAX_INTERVIEW_LENGTH interview_length)))) ∧
    1 ≤ estimate_skill_level skill_score error_std error_bias interview_length
        noiseSample ∧
    estimate_skill_level skill_score error_std error_bias interview_length
        noiseSample ≤ 100 := by
  refine ⟨rfl, ?_, ?_⟩
  · show (1 : ℤ) ≤ max 1 (min 100 _)
    exact le_max_left _ _
  · show max 1 (min 100 _) ≤ (100 : ℤ)
    exact max_le (by norm_num) (min_le_left _ _)

/-- C2: on a non-empty list of step results the `"immediate"` policy
eliminates iff the most recent step mean is strictly below the target,
the `"aggregate"` policy eliminates iff the running mean of the step
means is strictly below the target; the two agree on singleton lists,
and a running mean equal to the target does not eliminate. -/
theorem C2_elimination_policies (scores : List StepResult) (target : ℚ)
    (hne : scores ≠ []) :
    (immediateElim scores target = some true ↔
      (scores.getLast hne).avg < target) ∧
    (aggregateElim scores target = some true ↔
      (scores.map StepResult.avg).sum / (scores.length : ℚ) < target) ∧
    (scores.length = 1 →
      immediateElim scores target = aggregateElim scores target) ∧
    ((scores.map StepResult.avg).sum / (scores.length : ℚ) = target →
      aggregateElim scores target = some false) := by
  refine ⟨?_, ?_, ?_, ?_⟩
  · rw [immediateElim, List.getLast?_eq_getLast_of_ne_nil hne]
    simp
  · rw [aggregateElim, if_neg (by simpa using hne)]
    simp
  · intro h1
    obtain ⟨a, rfl⟩ := List.length_eq_one.mp h1
    simp [immediateElim, aggregateElim]
  · intro heq
    rw [aggregateElim, if_neg (by simpa using hne), heq]
    simp

/-- C2 witness: the policies at a concrete singleton result list. -/
theorem C2_elimination_policies_witness :
    (immediateElim [⟨60, 60, 60, 60, 0⟩] 61 = some true ↔
      (([⟨60, 60, 60, 60, 0⟩] : List StepResult).getLast
        (List.cons_ne_nil _ _)).avg < 61) ∧
    (aggregateElim [⟨60, 60, 60, 60, 0⟩] 61 = some true ↔
      (([⟨60, 60, 60, 60, 0⟩] : List StepResult).map StepResult.avg).sum /
        ((([⟨60, 60, 60, 60, 0⟩] : List StepResult).length : ℚ)) < 61) ∧
    (([⟨60, 60, 60, 60, 0⟩] : List StepResult).length = 1 →
      immediateElim [⟨60, 60, 60, 60, 0⟩] 61 =
        aggregateElim [⟨60, 60, 60, 60, 0⟩] 61) ∧
    ((([⟨60, 60, 60, 60, 0⟩] : List StepResult).map StepResult.avg).sum /
        ((([⟨60, 60, 60, 60, 0⟩] : List StepResult).length : ℚ)) = 61 →
      aggregateElim [⟨60, 60, 60, 60, 0⟩] 61 = some false) :=
  C2_elimination_policies [⟨60, 60, 60, 60, 0⟩] 61 (List.cons_ne_nil _ _)

/-- C8: `create_elimination_function` returns the `"immediate"` and
`"aggregate"` policies for exactly those two names and raises
`ValueError` on every other name. -/
theorem C8_unknown_elimination_type :
    create_elimination_function "immediate" = Except.ok immediateElim ∧
    create_elimination_function "aggregate" = Except.ok aggregateElim ∧
    ∀ s : String, s ≠ "immediate" → s ≠ "aggregate" →
      create_elimination_function s =
        Except.error "Invalid elimination type. Choose immediate or aggregate." := by
  refine ⟨rfl, ?_, ?_⟩
  · rw [create_elimination_function, if_neg (by decide), if_pos rfl]
  · intro s h1 h2
    rw [create_elimination_function, if_neg h1, if_neg h2]

/-- C8 witness: the name `"linear"` raises. -/
theorem C8_unknown_elimination_type_witness :
    create_elimination_function "linear" =
      Except.error "Invalid elimination type. Choose immediate or aggregate." :=
  C8_unknown_elimination_type.2.2 "linear" (by decide) (by decide)

/-- C7 counterexample: constructing an `InterviewStep` with duration `3`
(out of range `[1/4, 2]`) does not succeed with a clamped duration — the
pydantic bound check rejects it with a validation error. -/
theorem C7_counterexample :
    InterviewStep.create 3 [] =
      Except.error "ValidationError: duration out of range" := by
  rw [InterviewStep.create,
    if_neg (by norm_num [MIN_INTERVIEW_LENGTH, MAX_INTERVIEW_LENGTH])]

/-- C7 amended: constructing an `InterviewStep` succeeds exactly when
the duration already lies in
`[MIN_INTERVIEW_LENGTH, MAX_INTERVIEW_LENGTH]`; an out-of-range duration
is rejected with a validation error, not clamped, and an accepted
duration is stored verbatim. -/
theorem C7_step_duration_validation (duration : ℚ)
    (interviewers : List Engineer) :
    ((∃ s, InterviewStep.create duration interviewers = Except.ok s) ↔
      MIN_INTERVIEW_LENGTH ≤ duration ∧ duration ≤ MAX_INTERVIEW_LENGTH) ∧
    ∀ s, InterviewStep.create duration interviewers = Except.ok s →
      s.duration = duration ∧ s.interviewers = interviewers := by
  rw [InterviewStep.create]
  split
  case isTrue h =>
    refine ⟨⟨fun _ => h, fun _ => ⟨_, rfl⟩⟩, ?_⟩
    intro s hs
    injection hs with h2
    rw [← h2]
    exact ⟨rfl, rfl⟩
  case isFalse h =>
    refine ⟨⟨?_, fun hh => absurd hh h⟩, ?_⟩
    · rintro ⟨s, hs⟩
      simp at hs
    · intro s hs
      simp at hs

/-- C7 witness: an in-range duration is accepted and stored verbatim. -/
theorem C7_step_duration_validation_witness :
    (∃ s, InterviewStep.create 1 [] = Except.ok s) ∧
    ((⟨1, []⟩ : InterviewStep).duration = 1 ∧
      (⟨1, []⟩ : InterviewStep).interviewers = ([] : List Engineer)) := by
  constructor
  · exact (C7_step_duration_validation 1 []).1.mpr
      (by norm_num [MIN_INTERVIEW_LENGTH, MAX_INTERVIEW_LENGTH])
  · refine (C7_step_duration_validation 1 []).2 ⟨1, []⟩ ?_
    rw [InterviewStep.create,
      if_pos (show MIN_INTERVIEW_LENGTH ≤ (1 : ℚ) ∧ (1 : ℚ) ≤ MAX_INTERVIEW_LENGTH from
        by norm_num [MIN_INTERVIEW_LENGTH, MAX_INTERVIEW_LENGTH])]

/-- C6 counterexample: an `InterviewPipeline` with zero steps is
constructed without any error and is runnable — calling it returns
elapsed time `0` and an empty result list instead of failing fast. -/
theorem C6_counterexample :
    InterviewPipeline.call ⟨[]⟩ 50 "immediate" ⟨⟨60, 10, 0, 10, 0⟩, 60⟩
      (fun _ _ => 0) = some (0, []) := rfl

/-- C6 amended: `create_interview` (via `Interview.validate`) does fail
fast on zero steps or an empty-interviewer step, but `InterviewPipeline`
performs no validation: any step list yields a pipeline, and the
zero-step pipeline runs, returning `(0, [])`. -/
theorem C6_pipeline_validation :
    (∀ steps : List InterviewStep,
      (∃ itv, create_interview steps = Except.ok itv) ↔
        (steps ≠ [] ∧ ∀ s ∈ steps, s.interviewers ≠ [])) ∧
    (∀ steps : List InterviewStep,
      (create_interview_pipeline steps).steps = steps) ∧
    (∀ (target : ℚ) (cand : Engineer) (noise : ℕ → ℕ → ℚ),
      InterviewPipeline.call ⟨[]⟩ target "immediate" cand noise =
        some (0, [])) ∧
    (∀ (target d : ℚ) (cand : Engineer) (noise : ℕ → ℕ → ℚ),
      InterviewPipeline.call ⟨[⟨d, []⟩]⟩ target "immediate" cand noise =
        none) := by
  refine ⟨?_, fun _ => rfl, fun _ _ _ => rfl, fun _ _ _ _ => rfl⟩
  intro steps
  simp only [create_interview, Interview.validate]
  by_cases h1 : steps.isEmpty
  · simp [h1, List.isEmpty_iff.mp h1]
  · by_cases h2 : steps.any fun s => s.interviewers.isEmpty
    · rw [if_neg h1, if_pos h2]
      simp only [List.any_eq_true] at h2
      obtain ⟨s, hs, hsempty⟩ := h2
      simp only [List.isEmpty_iff] at hsempty
      constructor
      · rintro ⟨itv, hitv⟩
        simp at hitv
      · rintro ⟨-, hall⟩
        exact absurd hsempty (hall s hs)
    · rw [if_neg h1, if_neg h2]
      simp only [List.any_eq_true, not_exists] at h2
      refine ⟨fun _ => ⟨?_, ?_⟩, fun _ => ⟨⟨steps⟩, rfl⟩⟩
      · intro hnil
        exact h1 (by simp [hnil])
      · intro s hs
        have := h2 s
        simp only [List.isEmpty_iff] at this
        intro hemp
        exact this ⟨hs, hemp⟩

/-- C6 witness: a valid one-step interview passes validation; the
pipeline constructor stores any steps unvalidated; the empty pipeline
runs. -/
theorem C6_pipeline_validation_witness :
    (∃ itv, create_interview [⟨1, [⟨⟨60, 10, 0, 10, 0⟩, 60⟩]⟩] =
      Except.ok itv) ∧
    (create_interview_pipeline []).steps = [] ∧
    InterviewPipeline.call ⟨[]⟩ 77 "immediate" ⟨⟨60, 10, 0, 10, 0⟩, 60⟩
      (fun _ _ => 0) = some (0, []) ∧
    InterviewPipeline.call ⟨[⟨1, []⟩]⟩ 77 "immediate" ⟨⟨60, 10, 0, 10, 0⟩, 60⟩
      (fun _ _ => 0) = none :=
  ⟨(C6_pipeline_validation.1 _).mpr ⟨by simp, by simp⟩,
   C6_pipeline_validation.2.1 [],
   C6_pipeline_validation.2.2.1 77 _ _,
   C6_pipeline_validation.2.2.2 77 1 _ _⟩

/-- C3: with a valid elimination type and every step having at least one
interviewer, a pipeline run conducts the steps in order, consults the
policy after each step, and returns exactly the results of the first `k`
steps and the sum of exactly those `k` durations, where `k` is the
number of executed steps: no elimination is signalled after steps
`1..k-1` and it is signalled after step `k` whenever steps remain. -/
theorem C3_pipeline_executes_prefix (p : InterviewPipeline) (target : ℚ)
    (etype : String) (cand : Engineer) (noise : ℕ → ℕ → ℚ) (k : ℕ)
    (hety : etype = "immediate" ∨ etype = "aggregate")
    (hsteps : ∀ s ∈ p.steps, s.interviewers ≠ [])
    (hk_le : k ≤ p.steps.length)
    (hk_pos : p.steps ≠ [] → k ≠ 0)
    (hk_no : ∀ j, 0 < j → j < k →
      elimTotal etype ((conducts cand noise 0 p.steps).take j) target = false)
    (hk_yes : k < p.steps.length →
      elimTotal etype ((conducts cand noise 0 p.steps).take k) target = true) :
    p.call target etype cand noise =
      some (((p.steps.take k).map InterviewStep.duration).sum,
        (conducts cand noise 0 p.steps).take k) := by
  rcases hety with h | h
  · subst h
    rw [InterviewPipeline.call, create_elim_imm]
    have hr := runSteps_characterization (elimTotal "immediate") immediateElim
      immediateElim_total target cand noise p.steps 0 0 [] k hsteps hk_le hk_pos
      (by simpa using hk_no) (by simpa using hk_yes)
    simpa using hr
  · subst h
    rw [InterviewPipeline.call, create_elim_agg]
    have hr := runSteps_characterization (elimTotal "aggregate") aggregateElim
      aggregateElim_total target cand noise p.steps 0 0 [] k hsteps hk_le hk_pos
      (by simpa using hk_no) (by simpa using hk_yes)
    simpa using hr

/-- C3 witness: a two-step pipeline with an immediate policy eliminating
after step one returns only the first step's duration and result. -/
theorem C3_pipeline_executes_prefix_witness :
    InterviewPipeline.call
        ⟨[⟨1, [⟨⟨80, 10, 0, 10, 0⟩, 80⟩]⟩, ⟨2, [⟨⟨80, 10, 0, 10, 0⟩, 80⟩]⟩]⟩
        60 "immediate" ⟨⟨40, 10, 0, 10, 0⟩, 40⟩ (fun _ _ => 0) =
      some (1, [⟨40, 40, 40, 40, 0⟩]) := by
  have heval : conducts ⟨⟨40, 10, 0, 10, 0⟩, 40⟩ (fun _ _ => 0) 0
      [⟨1, [⟨⟨80, 10, 0, 10, 0⟩, 80⟩]⟩, ⟨2, [⟨⟨80, 10, 0, 10, 0⟩, 80⟩]⟩] =
      [⟨40, 40, 40, 40, 0⟩, ⟨40, 40, 40, 40, 0⟩] := by
    norm_num [conducts, statsOfStep, statsOf, scoresFrom,
      Engineer.estimate_other_skill, estimate_skill_level, truncQ,
      MIN_INTERVIEW_LENGTH, MAX_INTERVIEW_LENGTH, min_def, max_def, intsMin,
      intsMax, avgOf, medianOf, varOf, sortInts, insertSortedInt]
  have h := C3_pipeline_executes_prefix
    ⟨[⟨1, [⟨⟨80, 10, 0, 10, 0⟩, 80⟩]⟩, ⟨2, [⟨⟨80, 10, 0, 10, 0⟩, 80⟩]⟩]⟩
    60 "immediate" ⟨⟨40, 10, 0, 10, 0⟩, 40⟩ (fun _ _ => 0) 1 (Or.inl rfl)
    (by intro s hs; simp at hs; rcases hs with rfl | rfl <;> simp)
    (by simp)
    (fun _ => one_ne_zero)
    (by intro j h1 h2; omega)
    (by intro _; rw [heval]; norm_num [elimTotal, List.take])
  rw [h, heval]
  norm_num [List.take]

/-- C10: the pipeline loop consults the elimination function only on
non-empty result lists — its outcome is unchanged by how the function
behaves on the empty list — and on non-empty lists both the
`"immediate"` closure (last-element access) and the `"aggregate"`
closure (division by the length) return a value rather than raising. -/
theorem C10_elimination_only_nonempty :
    (∀ (f g : List StepResult → ℚ → Option Bool),
      (∀ l t, l ≠ [] → f l t = g l t) →
      ∀ (target : ℚ) (cand : Engineer) (noise : ℕ → ℕ → ℚ)
        (steps : List InterviewStep) (i0 : ℕ) (t0 : ℚ) (acc : List StepResult),
        runSteps f target cand noise steps i0 t0 acc =
          runSteps g target cand noise steps i0 t0 acc) ∧
    ∀ (scores : List StepResult) (target : ℚ), scores ≠ [] →
      (∃ b, immediateElim scores target = some b) ∧
      ∃ b, aggregateElim scores target = some b := by
  constructor
  · intro f g hfg target cand noise steps
    induction steps with
    | nil => intro i0 t0 acc; rfl
    | cons s rest ih =>
      intro i0 t0 acc
      simp only [runSteps]
      cases hc : s.conduct cand (noise i0) with
      | none => rfl
      | some cur =>
        dsimp only
        rw [hfg (acc ++ [cur]) target (by simp)]
        cases g (acc ++ [cur]) target with
        | none => rfl
        | some b =>
          cases b with
          | true => rfl
          | false => exact ih (i0 + 1) (t0 + s.duration) (acc ++ [cur])
  · intro scores target h
    exact ⟨⟨elimTotal "immediate" scores target, immediateElim_total _ _ h⟩,
      ⟨elimTotal "aggregate" scores target, aggregateElim_total _ _ h⟩⟩

/-- C10 witness: a concrete run is insensitive to an elimination
function that raises on the empty list, and both policies return values
on a concrete non-empty list. -/
theorem C10_elimination_only_nonempty_witness :
    (runSteps (fun _ _ => some true) 60 ⟨⟨60, 10, 0, 10, 0⟩, 60⟩ (fun _ _ => 0)
        [⟨1, [⟨⟨80, 10, 0, 10, 0⟩, 80⟩]⟩] 0 0 [] =
      runSteps (fun l _ => if l.isEmpty then none else some true) 60
        ⟨⟨60, 10, 0, 10, 0⟩, 60⟩ (fun _ _ => 0)
        [⟨1, [⟨⟨80, 10, 0, 10, 0⟩, 80⟩]⟩] 0 0 []) ∧
    (∃ b, immediateElim [⟨60, 60, 60, 60, 0⟩] 50 = some b) ∧
    ∃ b, aggregateElim [⟨60, 60, 60, 60, 0⟩] 50 = some b :=
  ⟨C10_elimination_only_nonempty.1 (fun _ _ => some true)
      (fun l _ => if l.isEmpty then none else some true)
      (fun l t hl => by
        cases l with
        | nil => exact absurd rfl hl
        | cons a as => rfl)
      60 ⟨⟨60, 10, 0, 10, 0⟩, 60⟩ (fun _ _ => 0)
      [⟨1, [⟨⟨80, 10, 0, 10, 0⟩, 80⟩]⟩] 0 0 [],
   C10_elimination_only_nonempty.2 [⟨60, 60, 60, 60, 0⟩] 50
     (List.cons_ne_nil _ _)⟩

lemma searchLoop_screened_le (p : InterviewPipeline) (ts tc : ℚ) (et : String)
    (raw : ℕ → Draw) (noise : ℕ → ℕ → ℕ → ℚ) (gf : ℕ) :
    ∀ (fuel rawIdx screened : ℕ) (out : Option Engineer × ℚ × ℚ × ℕ),
      searchLoop p ts tc et raw noise gf fuel rawIdx screened = some out →
      out.2.2.2 ≤ screened + fuel := by
  intro fuel
  induction fuel with
  | zero =>
    intro rawIdx screened out h
    rw [searchLoop] at h
    cases h
    simp
  | succ fuel ih =>
    intro rawIdx screened out h
    rw [searchLoop] at h
    cases hg : genCandidates ts (3/20) raw gf rawIdx with
    | none => rw [hg] at h; exact absurd h (by simp)
    | some cr =>
      obtain ⟨c, r2⟩ := cr
      rw [hg] at h
      dsimp only at h
      cases hp : p.call ts et c (noise screened) with
      | none => rw [hp] at h; exact absurd h (by simp)
      | some tsc =>
        obtain ⟨t, scores⟩ := tsc
        rw [hp] at h
        dsimp only at h
        by_cases hacc : acceptsB ts tc scores = true
        · rw [if_pos hacc] at h
          cases h
          simp
        · rw [if_neg hacc] at h
          have := ih r2 (screened + 1) out h
          omega

lemma searchLoop_first_accept (p : InterviewPipeline) (ts tc : ℚ) (et : String)
    (raw : ℕ → Draw) (noise : ℕ → ℕ → ℕ → ℚ) (gf : ℕ)
    (cands : ℕ → Engineer) (idxs : ℕ → ℕ) (times : ℕ → ℚ)
    (scoresL : ℕ → List StepResult) (k : ℕ)
    (hyield : ∀ j, j ≤ k →
      genCandidates ts (3/20) raw gf (idxs j) = some (cands j, idxs (j + 1)))
    (hpipe : ∀ j, j ≤ k →
      p.call ts et (cands j) (noise j) = some (times j, scoresL j))
    (hrej : ∀ j, j < k → acceptsB ts tc (scoresL j) = false)
    (hacc : acceptsB ts tc (scoresL k) = true) :
    ∀ (fuel s : ℕ), s ≤ k → k < s + fuel →
      searchLoop p ts tc et raw noise gf fuel (idxs s) s =
        some (some (cands k), times k, finalScoreOf (scoresL k), k + 1) := by
  intro fuel
  induction fuel with
  | zero => intro s hs hk; omega
  | succ fuel ih =>
    intro s hs hk
    rw [searchLoop, hyield s hs]
    dsimp only
    rw [hpipe s hs]
    dsimp only
    rcases Nat.lt_or_ge s k with hlt | hge
    · rw [if_neg (by rw [hrej s hlt]; simp)]
      exact ih (s + 1) hlt (by omega)
    · have hsk : s = k := Nat.le_antisymm hs hge
      subst hsk
      rw [if_pos hacc]

lemma searchLoop_exhaust (p : InterviewPipeline) (ts tc : ℚ) (et : String)
    (raw : ℕ → Draw) (noise : ℕ → ℕ → ℕ → ℚ) (gf : ℕ)
    (cands : ℕ → Engineer) (idxs : ℕ → ℕ) (times : ℕ → ℚ)
    (scoresL : ℕ → List StepResult) (N : ℕ)
    (hyield : ∀ j, j < N →
      genCandidates ts (3/20) raw gf (idxs j) = some (cands j, idxs (j + 1)))
    (hpipe : ∀ j, j < N →
      p.call ts et (cands j) (noise j) = some (times j, scoresL j))
    (hrej : ∀ j, j < N → acceptsB ts tc (scoresL j) = false) :
    ∀ (fuel s : ℕ), s + fuel = N →
      searchLoop p ts tc et raw noise gf fuel (idxs s) s =
        some (none, 0, 0, N) := by
  intro fuel
  induction fuel with
  | zero =>
    intro s hsN
    have hs : s = N := by omega
    subst hs
    rfl
  | succ fuel ih =>
    intro s hsN
    have hs : s < N := by omega
    rw [searchLoop, hyield s hs]
    dsimp only
    rw [hpipe s hs]
    dsimp only
    rw [if_neg (by rw [hrej s hs]; simp)]
    exact ih (s + 1) (by omega)

lemma eval_cand : Engineer.create ⟨60, 10, 0, 10, 0⟩ 0 = ⟨⟨60, 10, 0, 10, 0⟩, 60⟩ := by
  norm_num [Engineer.create, estimate_skill_level, truncQ, MIN_INTERVIEW_LENGTH,
    MAX_INTERVIEW_LENGTH, DEFAULT_SELF_ASSESSMENT_TIME, min_def, max_def]

lemma eval_conduct : InterviewStep.conduct ⟨1, [⟨⟨80, 10, 0, 10, 0⟩, 80⟩]⟩
    ⟨⟨60, 10, 0, 10, 0⟩, 60⟩ (fun _ => 0) = some ⟨60, 60, 60, 60, 0⟩ := by
  norm_num [InterviewStep.conduct, scoresFrom, Engineer.estimate_other_skill,
    estimate_skill_level, truncQ, MIN_INTERVIEW_LENGTH, MAX_INTERVIEW_LENGTH,
    min_def, max_def, statsOf, intsMin, intsMax, avgOf, medianOf, varOf, sortInts,
    insertSortedInt]

lemma eval_call : InterviewPipeline.call ⟨[⟨1, [⟨⟨80, 10, 0, 10, 0⟩, 80⟩]⟩]⟩ 60
    "immediate" ⟨⟨60, 10, 0, 10, 0⟩, 60⟩ (fun _ _ => 0) =
    some (1, [⟨60, 60, 60, 60, 0⟩]) := by
  rw [InterviewPipeline.call]
  norm_num [create_elimination_function, runSteps, eval_conduct, immediateElim]

lemma eval_offer : make_offer 60 0 = 291600 := by
  norm_num [make_offer, map_skill_to_compensation, linear_interpolation, min_def,
    max_def, MEDIAN_COMPENSATION, P75_COMPENSATION]

lemma eval_accept : acceptsB 60 300000 [⟨60, 60, 60, 60, 0⟩] = true := by
  norm_num [acceptsB, finalScoreOf, truncQ, eval_offer]

lemma eval_reject : acceptsB 60 0 [⟨60, 60, 60, 60, 0⟩] = false := by
  norm_num [acceptsB, finalScoreOf, truncQ, eval_offer]

lemma eval_band : inBand 60 (3/20) ⟨⟨60, 10, 0, 10, 0⟩, 0, 0⟩ = true := by
  norm_num [inBand, eval_cand, estimate_skill_level, truncQ, MIN_INTERVIEW_LENGTH,
    MAX_INTERVIEW_LENGTH, DEFAULT_SELF_ASSESSMENT_TIME, min_def, max_def]

lemma eval_band_fail : inBand 60 (3/20) ⟨⟨10, 10, 0, 10, 0⟩, 0, 0⟩ = false := by
  norm_num [inBand, Engineer.create, estimate_skill_level, truncQ,
    MIN_INTERVIEW_LENGTH, MAX_INTERVIEW_LENGTH, DEFAULT_SELF_ASSESSMENT_TIME,
    min_def, max_def]

lemma eval_gen (j : ℕ) :
    genCandidates 60 (3/20) (fun _ => ⟨⟨60, 10, 0, 10, 0⟩, 0, 0⟩) 1 j =
      some (⟨⟨60, 10, 0, 10, 0⟩, 60⟩, j + 1) := by
  rw [genCandidates, eval_cand]
  norm_num [eval_band]

/-- C4: in each `find_suitable_candidate` iteration the final score is
the mean of the last recorded step result (`0` on an empty result
list), the accept test is `finalScore ≥ targetScore` together with
`make_offer(int(finalScore), 0) ≤ targetCompensation`, and on the first
accepting iteration `k` the function immediately returns that
candidate, its pipeline elapsed time, its final score, and the `k + 1`
candidates screened so far. -/
theorem C4_first_accepted_candidate (p : InterviewPipeline) (ts tc : ℚ)
    (et : String) (raw : ℕ → Draw) (noise : ℕ → ℕ → ℕ → ℚ) (gf : ℕ)
    (cands : ℕ → Engineer) (idxs : ℕ → ℕ) (times : ℕ → ℚ)
    (scoresL : ℕ → List StepResult) (k : ℕ)
    (h0 : idxs 0 = 0) (hk : k < MAX_CANDIDATES_TO_CONSIDER)
    (hyield : ∀ j, j ≤ k →
      genCandidates ts (3/20) raw gf (idxs j) = some (cands j, idxs (j + 1)))
    (hpipe : ∀ j, j ≤ k →
      p.call ts et (cands j) (noise j) = some (times j, scoresL j))
    (hrej : ∀ j, j < k → acceptsB ts tc (scoresL j) = false)
    (hacc : acceptsB ts tc (scoresL k) = true) :
    find_suitable_candidate p ts tc et raw noise gf =
      some (some (cands k), times k, finalScoreOf (scoresL k), k + 1) ∧
    (∀ (scores : List StepResult) (hne : scores ≠ []),
      finalScoreOf scores = (scores.getLast hne).avg) ∧
    finalScoreOf [] = 0 ∧
    ∀ (ts2 tc2 : ℚ) (scores : List StepResult),
      acceptsB ts2 tc2 scores = true ↔
        (ts2 ≤ finalScoreOf scores ∧
          make_offer (truncQ (finalScoreOf scores)) 0 ≤ tc2) := by
  refine ⟨?_, ?_, rfl, ?_⟩
  · rw [find_suitable_candidate]
    nth_rewrite 1 [← h0]
    exact searchLoop_first_accept p ts tc et raw noise gf cands idxs times
      scoresL k hyield hpipe hrej hacc MAX_CANDIDATES_TO_CONSIDER 0
      (Nat.zero_le k) (by omega)
  · intro scores hne
    simp only [finalScoreOf, List.getLast?_eq_getLast_of_ne_nil hne]
  · intro ts2 tc2 scores
    simp [acceptsB]

/-- C4 witness: a candidate accepted at the first iteration. -/
theorem C4_first_accepted_candidate_witness :
    find_suitable_candidate ⟨[⟨1, [⟨⟨80, 10, 0, 10, 0⟩, 80⟩]⟩]⟩ 60 300000
        "immediate" (fun _ => ⟨⟨60, 10, 0, 10, 0⟩, 0, 0⟩) (fun _ _ _ => 0) 1 =
      some (some ⟨⟨60, 10, 0, 10, 0⟩, 60⟩, 1, 60, 1) := by
  have h := (C4_first_accepted_candidate ⟨[⟨1, [⟨⟨80, 10, 0, 10, 0⟩, 80⟩]⟩]⟩ 60
    300000 "immediate" (fun _ => ⟨⟨60, 10, 0, 10, 0⟩, 0, 0⟩) (fun _ _ _ => 0) 1
    (fun _ => ⟨⟨60, 10, 0, 10, 0⟩, 60⟩) (fun j => j) (fun _ => 1)
    (fun _ => [⟨60, 60, 60, 60, 0⟩]) 0 rfl
    (by norm_num [MAX_CANDIDATES_TO_CONSIDER])
    (fun j hj => eval_gen j)
    (fun j hj => eval_call)
    (fun j hj => absurd hj (Nat.not_lt_zero j))
    eval_accept).1
  rw [h]
  norm_num [finalScoreOf]

/-- C5: the number of screened candidates never exceeds
`MAX_CANDIDATES_TO_CONSIDER`, and when every one of the
`MAX_CANDIDATES_TO_CONSIDER` iterations rejects, the search returns the
empty candidate, elapsed time `0`, final score `0`, and the full draw
count. -/
theorem C5_draw_bound_and_exhaustion (p : InterviewPipeline) (ts tc : ℚ)
    (et : String) (raw : ℕ → Draw) (noise : ℕ → ℕ → ℕ → ℚ) (gf : ℕ)
    (cands : ℕ → Engineer) (idxs : ℕ → ℕ) (times : ℕ → ℚ)
    (scoresL : ℕ → List StepResult)
    (h0 : idxs 0 = 0)
    (hyield : ∀ j, j < MAX_CANDIDATES_TO_CONSIDER →
      genCandidates ts (3/20) raw gf (idxs j) = some (cands j, idxs (j + 1)))
    (hpipe : ∀ j, j < MAX_CANDIDATES_TO_CONSIDER →
      p.call ts et (cands j) (noise j) = some (times j, scoresL j))
    (hrej : ∀ j, j < MAX_CANDIDATES_TO_CONSIDER →
      acceptsB ts tc (scoresL j) = false) :
    find_suitable_candidate p ts tc et raw noise gf =
      some (none, 0, 0, MAX_CANDIDATES_TO_CONSIDER) ∧
    ∀ (p2 : InterviewPipeline) (ts2 tc2 : ℚ) (et2 : String) (raw2 : ℕ → Draw)
      (noise2 : ℕ → ℕ → ℕ → ℚ) (gf2 : ℕ) (out : Option Engineer × ℚ × ℚ × ℕ),
      find_suitable_candidate p2 ts2 tc2 et2 raw2 noise2 gf2 = some out →
      out.2.2.2 ≤ MAX_CANDIDATES_TO_CONSIDER := by
  constructor
  · rw [find_suitable_candidate]
    nth_rewrite 1 [← h0]
    exact searchLoop_exhaust p ts tc et raw noise gf cands idxs times scoresL
      MAX_CANDIDATES_TO_CONSIDER hyield hpipe hrej MAX_CANDIDATES_TO_CONSIDER 0
      (Nat.zero_add _)
  · intro p2 ts2 tc2 et2 raw2 noise2 gf2 out hout
    have := searchLoop_screened_le p2 ts2 tc2 et2 raw2 noise2 gf2
      MAX_CANDIDATES_TO_CONSIDER 0 0 out hout
    simpa using this

/-- C5 witness: a population whose every candidate fails the
compensation test exhausts the full `MAX_CANDIDATES_TO_CONSIDER` draws. -/
theorem C5_draw_bound_and_exhaustion_witness :
    find_suitable_candidate ⟨[⟨1, [⟨⟨80, 10, 0, 10, 0⟩, 80⟩]⟩]⟩ 60 0
        "immediate" (fun _ => ⟨⟨60, 10, 0, 10, 0⟩, 0, 0⟩) (fun _ _ _ => 0) 1 =
      some (none, 0, 0, MAX_CANDIDATES_TO_CONSIDER) ∧
    MAX_CANDIDATES_TO_CONSIDER ≤ MAX_CANDIDATES_TO_CONSIDER := by
  have h := C5_draw_bound_and_exhaustion ⟨[⟨1, [⟨⟨80, 10, 0, 10, 0⟩, 80⟩]⟩]⟩ 60 0
    "immediate" (fun _ => ⟨⟨60, 10, 0, 10, 0⟩, 0, 0⟩) (fun _ _ _ => 0) 1
    (fun _ => ⟨⟨60, 10, 0, 10, 0⟩, 60⟩) (fun j => j) (fun _ => 1)
    (fun _ => [⟨60, 60, 60, 60, 0⟩]) rfl
    (fun j hj => eval_gen j)
    (fun j hj => eval_call)
    (fun j hj => eval_reject)
  exact ⟨h.1, h.2 _ 60 0 "immediate" _ _ 1 (none, 0, 0, MAX_CANDIDATES_TO_CONSIDER) h.1⟩

/-- C9: whenever the candidate generator yields, the yielded candidate
is built from the first raw draw whose freshly cached self-perceived
skill lies within the tolerance band around the candidate's own noisy
estimate of the target score, and every earlier raw draw since the
start of the search failed that band test (it is silently discarded). -/
theorem C9_generator_band_filter (target tol : ℚ) (raw : ℕ → Draw) :
    ∀ (fuel i : ℕ) (c : Engineer) (j : ℕ),
      genCandidates target tol raw fuel i = some (c, j) →
      i < j ∧ j ≤ i + fuel ∧
      c = Engineer.create (raw (j - 1)).params (raw (j - 1)).ownNoise ∧
      inBand target tol (raw (j - 1)) = true ∧
      ∀ m, i ≤ m → m < j - 1 → inBand target tol (raw m) = false := by
  intro fuel
  induction fuel with
  | zero =>
    intro i c j h
    exact absurd h (by rw [genCandidates]; simp)
  | succ fuel ih =>
    intro i c j h
    rw [genCandidates] at h
    by_cases hb : inBand target tol (raw i) = true
    · rw [if_pos hb] at h
      cases h
      refine ⟨by omega, by omega, by simp, by simpa using hb, ?_⟩
      intro m h1 h2
      omega
    · rw [if_neg hb] at h
      have hb' : inBand target tol (raw i) = false := by
        revert hb
        cases inBand target tol (raw i) <;> simp
      obtain ⟨h1, h2, h3, h4, h5⟩ := ih (i + 1) c j h
      refine ⟨by omega, by omega, h3, h4, ?_⟩
      intro m hm1 hm2
      rcases Nat.eq_or_lt_of_le hm1 with rfl | hlt
      · exact hb'
      · exact h5 m hlt hm2

/-- C9 witness: a first raw draw outside the band is skipped without
being yielded; the second, in-band draw is the candidate produced. -/
theorem C9_generator_band_filter_witness :
    genCandidates 60 (3/20)
        (fun i => if i = 0 then (⟨⟨10, 10, 0, 10, 0⟩, 0, 0⟩ : Draw)
          else ⟨⟨60, 10, 0, 10, 0⟩, 0, 0⟩) 2 0 =
      some (⟨⟨60, 10, 0, 10, 0⟩, 60⟩, 2) ∧
    inBand 60 (3/20)
      ((fun i => if i = 0 then (⟨⟨10, 10, 0, 10, 0⟩, 0, 0⟩ : Draw)
        else ⟨⟨60, 10, 0, 10, 0⟩, 0, 0⟩) 1) = true ∧
    inBand 60 (3/20)
      ((fun i => if i = 0 then (⟨⟨10, 10, 0, 10, 0⟩, 0, 0⟩ : Draw)
        else ⟨⟨60, 10, 0, 10, 0⟩, 0, 0⟩) 0) = false := by
  have hg : genCandidates 60 (3/20)
      (fun i => if i = 0 then (⟨⟨10, 10, 0, 10, 0⟩, 0, 0⟩ : Draw)
        else ⟨⟨60, 10, 0, 10, 0⟩, 0, 0⟩) 2 0 =
      some (⟨⟨60, 10, 0, 10, 0⟩, 60⟩, 2) := by
    rw [genCandidates]
    rw [if_neg (by norm_num [eval_band_fail])]
    rw [genCandidates]
    rw [if_pos (by norm_num [eval_band])]
    norm_num [eval_cand]
  have h := C9_generator_band_filter 60 (3/20)
    (fun i => if i = 0 then (⟨⟨10, 10, 0, 10, 0⟩, 0, 0⟩ : Draw)
      else ⟨⟨60, 10, 0, 10, 0⟩, 0, 0⟩) 2 0 ⟨⟨60, 10, 0, 10, 0⟩, 60⟩ 2 hg
  exact ⟨hg, h.2.2.2.1, h.2.2.2.2 0 (Nat.le_refl 0) Nat.one_pos⟩

end InterviewSim
